import Mathlib

/-!
Verification of the cwgen.py Morse-code (CW) audio generator.

The development shallowly embeds the source file src/cwgen.py:
real-valued computations of the timing generator are carried out in ℚ
(Python floats are modelled by exact rationals), audio sample values in ℝ
(the sine table is transcendental), Python exceptions become Option or an
explicit error flag, and Python random.gauss(mu, sigma) becomes
mu + sigma * z for an explicitly supplied draw z from the random source.
-/

namespace Cwgen

/-- Python int() applied to a real value: truncation toward zero. -/
def pyInt (x : ℚ) : ℤ :=
  if 0 ≤ x then ⌊x⌋ else ⌈x⌉

/-- Embeds cycle_n (cwgen.py lines 62-66):
periods = math.floor(n / length); rest = n - periods * length;
return periods * xs + xs[:rest].
Python raises ZeroDivisionError when xs is empty (modelled by none);
a negative repetition count yields the empty list, as in Python. -/
def cycle_n {α : Type} (xs : List α) (n : ℤ) : Option (List α) :=
  if xs.length = 0 then none
  else
    let periods : ℤ := Int.fdiv n xs.length
    let rest : ℤ := n - periods * xs.length
    some ((List.replicate periods.toNat xs).flatten ++ xs.take rest.toNat)

/-- SAMPWIDTH = 2 (16-bit audio), cwgen.py line 11. -/
def SAMPWIDTH : ℕ := 2

/-- max_amp = int(2 ** (8 * SAMPWIDTH - 1)) - 1, cwgen.py line 140. -/
def max_amp : ℤ := 2 ^ (8 * SAMPWIDTH - 1) - 1

/-- Embeds sine_wave (cwgen.py lines 68-75).  period = int(frame_rate /
frequency); the local amp = min(max(amplitude, 0.0), 1.0) is computed but
never used by the source (the table is built from the raw amplitude);
the table holds amplitude * sin(2 pi f (i mod period) / frame_rate) for
i in range(period), cycled to int(duration * frame_rate / 1000) samples. -/
noncomputable def sine_wave (frequency duration : ℚ) (frame_rate : ℚ := 44100)
    (amplitude : ℝ := 0.5) : Option (List ℝ) :=
  let period : ℤ := pyInt (frame_rate / frequency)
  let amp : ℝ := min (max amplitude 0) 1
  let lookup_table : List ℝ :=
    (List.range period.toNat).map fun i =>
      amplitude * Real.sin (2 * Real.pi * (frequency : ℝ) *
        ((i % period.toNat : ℕ) : ℝ) / (frame_rate : ℝ))
  cycle_n lookup_table (pyInt (duration * frame_rate / 1000))

/-- Embeds the CHARS alphabet table (cwgen.py lines 13-44), in source order. -/
def CHARS : List (Char × String) :=
  [ ('a', ".-"),
    ('b', "-..."),
    ('c', "-.-."),
    ('d', "-.."),
    ('e', "."),
    ('f', "..-."),
    ('g', "--."),
    ('h', "...."),
    ('i', ".."),
    ('j', ".---"),
    ('k', "-.-"),
    ('l', ".-.."),
    ('m', "--"),
    ('n', "-."),
    ('o', "---"),
    ('p', ".--."),
    ('q', "--.-"),
    ('r', ".-."),
    ('s', "..."),
    ('t', "-"),
    ('u', "..-"),
    ('v', "...-"),
    ('w', ".--"),
    ('x', "-..-"),
    ('y', "-.--"),
    ('z', "--.."),
    (' ', " "),
    (',', "--..--"),
    ('?', "..--.."),
    ('.', ".-.-.-") ]

/-- Models Python str.isspace() for a single character: the Unicode
whitespace code points Python recognises. -/
def py_isspace (c : Char) : Bool :=
  c.toNat ∈ [0x09, 0x0A, 0x0B, 0x0C, 0x0D, 0x1C, 0x1D, 0x1E, 0x1F, 0x20,
    0x85, 0xA0, 0x1680, 0x2000, 0x2001, 0x2002, 0x2003, 0x2004, 0x2005,
    0x2006, 0x2007, 0x2008, 0x2009, 0x200A, 0x2028, 0x2029, 0x202F,
    0x205F, 0x3000]

/-- Embeds normalise_char (cwgen.py lines 46-49): whitespace collapses to
a single space, anything else is lowercased (Char.toLower models
str.lower on the code points the alphabet table can match). -/
def normalise_char (c : Char) : Char :=
  if py_isspace c then ' ' else c.toLower

/-- Embeds char_to_cw (cwgen.py lines 55-60).  The optional unidecode
transliteration pass (an external library, out of scope per the spec) is a
pluggable parameter translit; the CHARS lookup raises KeyError on a
missing key, modelled by none. -/
def char_to_cw (translit : Char → Char) (normalise : Bool) (c : Char) :
    Option String :=
  let c := if normalise then translit c else c
  CHARS.lookup (normalise_char c)

/-- Python random.gauss(mu, sigma) given the underlying standard draw z:
the library returns mu + z * sigma. -/
def gauss (mu sigma z : ℚ) : ℚ := mu + z * sigma

/-- Embeds CWGenerator.dot_length (cwgen.py lines 102-106) as a function of
the current speed wpm, the configured length_standard_deviation sd, and the
gauss draw z: length = floor(1200 / wpm); dev = length * sd;
max(0, min(max(length - dev, gauss(length, dev)), length + dev)). -/
def dot_length_val (sd wpm z : ℚ) : ℚ :=
  let length : ℚ := (⌊(1200 : ℚ) / wpm⌋ : ℤ)
  let dev : ℚ := length * sd
  max 0 (min (max (length - dev) (gauss length dev z)) (length + dev))

/-- Embeds CWGenerator.dash_length (cwgen.py lines 108-109):
3 * dot_length(), consuming one fresh draw. -/
def dash_length_val (sd wpm z : ℚ) : ℚ := 3 * dot_length_val sd wpm z

/-- One iteration of the loop body of CWGenerator.produce_char
(cwgen.py lines 114-120): the element(s) yielded for one Morse symbol,
together with the next unused index into the draw stream zs. -/
def produce_symbol (zs : ℕ → ℚ) (sd wpm : ℚ) (c : Char) (i : ℕ) :
    List (Bool × ℚ) × ℕ :=
  if c = '.' then ([(true, dot_length_val sd wpm (zs i))], i + 1)
  else if c = '-' then ([(true, dash_length_val sd wpm (zs i))], i + 1)
  else if c = ' ' then ([(false, dot_length_val sd wpm (zs i) * 4)], i + 1)
  else ([], i)

/-- The loop of CWGenerator.produce_char (cwgen.py lines 113-123): each
symbol's elements, with an intra-character gap of one dot length after
every symbol except the last. -/
def produce_symbols (zs : ℕ → ℚ) (sd wpm : ℚ) :
    List Char → ℕ → List (Bool × ℚ) × ℕ
  | [], i => ([], i)
  | c :: rest, i =>
    let si := produce_symbol zs sd wpm c i
    match rest with
    | [] => si
    | _ :: _ =>
      let ti := produce_symbols zs sd wpm rest (si.2 + 1)
      (si.1 ++ (false, dot_length_val sd wpm (zs si.2)) :: ti.1, ti.2)

/-- Embeds CWGenerator.produce_char (cwgen.py lines 111-124) for a
pattern already looked up: the symbol loop followed by the trailing
inter-character silence of one dash length (line 124). -/
def produce_char_elems (zs : ℕ → ℚ) (sd wpm : ℚ) (pat : List Char) (i : ℕ) :
    List (Bool × ℚ) × ℕ :=
  let ei := produce_symbols zs sd wpm pat i
  (ei.1 ++ [(false, dash_length_val sd wpm (zs ei.2))], ei.2 + 1)

/-- Immutable configuration of CWGenerator (cwgen.py lines 88-100); the
mutable self.wpm is threaded separately. -/
structure CWGenerator where
  min_wpm : Option ℚ
  max_wpm : Option ℚ
  length_standard_deviation : ℚ := 0
  length_drift : ℚ := 0
  normalise_special_characters : Bool := false

/-- Embeds CWGenerator.produce_char including the CHARS lookup: a missing
key raises KeyError before anything is yielded, so the element list is
empty and the continuation index is none. -/
def produce_char (g : CWGenerator) (translit : Char → Char) (zs : ℕ → ℚ)
    (wpm : ℚ) (c : Char) (i : ℕ) : List (Bool × ℚ) × Option ℕ :=
  match char_to_cw translit g.normalise_special_characters c with
  | none => ([], none)
  | some pat =>
    let ei := produce_char_elems zs g.length_standard_deviation wpm pat.toList i
    (ei.1, some ei.2)

/-- Embeds CWGenerator.drift (cwgen.py lines 126-131):
drift = gauss(1.0, length_drift) clamped to [1 - d, 1 + d]; wpm *= drift;
then wpm = max(min_wpm, wpm) and wpm = min(max_wpm, wpm) where configured. -/
def drift_step (g : CWGenerator) (wpm z : ℚ) : ℚ :=
  let d := g.length_drift
  let drift := min (max (gauss 1 d z) (1 - d)) (1 + d)
  let wpm := wpm * drift
  let wpm := match g.min_wpm with
    | some m => max m wpm
    | none => wpm
  match g.max_wpm with
  | some m => min m wpm
  | none => wpm

/-- Embeds CWGenerator.produce (cwgen.py lines 133-136): per input
character, the elements of produce_char followed by one drift step (which
consumes one draw).  Returns the elements emitted before any error, and,
on success, the final speed and next draw index. -/
def produce (g : CWGenerator) (translit : Char → Char) (zs : ℕ → ℚ) :
    List Char → ℚ → ℕ → List (Bool × ℚ) × Option (ℚ × ℕ)
  | [], wpm, i => ([], some (wpm, i))
  | c :: cs, wpm, i =>
    match produce_char g translit zs wpm c i with
    | (es, none) => (es, none)
    | (es, some i1) =>
      let wpm1 := drift_step g wpm (zs i1)
      let r := produce g translit zs cs wpm1 (i1 + 1)
      (es ++ r.1, r.2)

/-- The audio accumulation loop of generate_wav (cwgen.py lines 142-151)
for the noise-free path (noise_level = 0), before quantization: per element
one sine_wave call at amplitude 0.5 * max_amp for tone-on and 0.0 for
silence, parts concatenated in element order.  A sine_wave failure (the
ZeroDivisionError of cycle_n) aborts the run with the samples emitted so
far (none, since the failing call precedes any append) and a false flag. -/
noncomputable def generate_wav_audio :
    List (Bool × ℚ) → ℚ → ℚ → List ℝ × Bool
  | [], _, _ => ([], true)
  | (tone, duration) :: rest, frame_rate, frequency =>
    match sine_wave frequency duration frame_rate
      (if tone then 0.5 * (max_amp : ℝ) else 0) with
    | none => ([], false)
    | some part =>
      let r := generate_wav_audio rest frame_rate frequency
      (part ++ r.1, r.2)

/-- Modelled from the spec: the canonical International Morse Code table
the spec's section 8 compares against, restricted to the characters the
spec lists as supported (lowercase letters, space as the word-gap symbol,
comma, question mark, full stop).  Written independently of CHARS, as a
function on characters. -/
def canonical_morse : Char → Option String := fun c =>
  match c with
  | 'e' => some "."
  | 't' => some "-"
  | 'i' => some ".."
  | 'a' => some ".-"
  | 'n' => some "-."
  | 'm' => some "--"
  | 's' => some "..."
  | 'u' => some "..-"
  | 'r' => some ".-."
  | 'w' => some ".--"
  | 'd' => some "-.."
  | 'k' => some "-.-"
  | 'g' => some "--."
  | 'o' => some "---"
  | 'h' => some "...."
  | 'v' => some "...-"
  | 'f' => some "..-."
  | 'l' => some ".-.."
  | 'p' => some ".--."
  | 'j' => some ".---"
  | 'b' => some "-..."
  | 'x' => some "-..-"
  | 'c' => some "-.-."
  | 'y' => some "-.--"
  | 'z' => some "--.."
  | 'q' => some "--.-"
  | ' ' => some " "
  | ',' => some "--..--"
  | '?' => some "..--.."
  | '.' => some ".-.-.-"
  | _ => none

/-- The characters the spec declares supported: lowercase letters, space,
comma, question mark, full stop. -/
def supported_characters : List Char :=
  "abcdefghijklmnopqrstuvwxyz ,?.".toList

/-! ## Helper lemmas -/

theorem pyInt_of_nonneg {x : ℚ} (h : 0 ≤ x) : pyInt x = ⌊x⌋ := if_pos h

theorem pyInt_nonneg {x : ℚ} (h : 0 ≤ x) : 0 ≤ pyInt x := by
  rw [pyInt_of_nonneg h]
  exact Int.floor_nonneg.mpr h

theorem cycle_n_eq_none_iff {α : Type} (xs : List α) (n : ℤ) :
    cycle_n xs n = none ↔ xs = [] := by
  simp only [cycle_n]
  split
  · simp_all [List.length_eq_zero]
  · simp_all [List.length_eq_zero]

theorem fdiv_natCast (m L : ℕ) :
    Int.fdiv (m : ℤ) (L : ℤ) = ((m / L : ℕ) : ℤ) :=
  (Int.ofNat_fdiv m L).symm

theorem cycle_n_length {α : Type} (xs : List α) (n : ℤ) (hxs : xs ≠ [])
    (hn : 0 ≤ n) : (cycle_n xs n).map List.length = some n.toNat := by
  obtain ⟨m, rfl⟩ : ∃ m : ℕ, n = (m : ℤ) :=
    ⟨n.toNat, (Int.toNat_of_nonneg hn).symm⟩
  have hL : xs.length ≠ 0 := by simpa [List.length_eq_zero] using hxs
  have h2 : m % xs.length < xs.length := Nat.mod_lt _ (Nat.pos_of_ne_zero hL)
  have h1 : ((m / xs.length : ℕ) : ℤ) * ((xs.length : ℕ) : ℤ) +
      ((m % xs.length : ℕ) : ℤ) = (m : ℤ) := by
    exact_mod_cast Nat.div_add_mod' m xs.length
  have e : ((m : ℤ) - ((m / xs.length : ℕ) : ℤ) * ((xs.length : ℕ) : ℤ)) =
      ((m % xs.length : ℕ) : ℤ) := by linarith
  simp only [cycle_n, if_neg hL, fdiv_natCast, e, Option.map_some']
  simp only [List.length_append, List.length_flatten, List.map_replicate,
    List.length_take, List.sum_const_nat, List.length_map, Int.toNat_natCast]
  rw [min_eq_left h2.le]
  exact congrArg some (Nat.div_add_mod' m xs.length)

theorem mem_of_mem_cycle_n {α : Type} {xs l : List α} {n : ℤ}
    (h : cycle_n xs n = some l) {a : α} (ha : a ∈ l) : a ∈ xs := by
  simp only [cycle_n] at h
  split at h
  · exact absurd h (by simp)
  · rw [Option.some.injEq] at h
    subst h
    rcases List.mem_append.mp ha with h1 | h2
    · obtain ⟨ys, hys, hmem⟩ := List.mem_flatten.mp h1
      obtain rfl := List.eq_of_mem_replicate hys
      exact hmem
    · exact List.take_subset _ _ h2

theorem sine_wave_eq (f d r : ℚ) (a : ℝ) :
    sine_wave f d r a =
      cycle_n ((List.range (pyInt (r / f)).toNat).map fun i =>
          a * Real.sin (2 * Real.pi * (f : ℝ) *
            ((i % (pyInt (r / f)).toNat : ℕ) : ℝ) / (r : ℝ)))
        (pyInt (d * r / 1000)) := rfl

theorem sine_wave_eq_none_iff (f d r : ℚ) (a : ℝ) :
    sine_wave f d r a = none ↔ pyInt (r / f) ≤ 0 := by
  rw [sine_wave_eq, cycle_n_eq_none_iff]
  simp [List.map_eq_nil_iff, List.range_eq_nil, Int.toNat_eq_zero]

theorem sine_wave_length (f d r : ℚ) (a : ℝ) (hp : 0 < pyInt (r / f))
    (hd : 0 ≤ pyInt (d * r / 1000)) :
    (sine_wave f d r a).map List.length = some (pyInt (d * r / 1000)).toNat := by
  rw [sine_wave_eq]
  refine cycle_n_length _ _ ?_ hd
  simp only [ne_eq, List.map_eq_nil_iff, List.range_eq_nil, Int.toNat_eq_zero]
  omega

theorem dot_length_val_nonneg (sd wpm z : ℚ) : 0 ≤ dot_length_val sd wpm z := by
  simp only [dot_length_val]
  exact le_max_left _ _

theorem dash_length_val_nonneg (sd wpm z : ℚ) : 0 ≤ dash_length_val sd wpm z := by
  have h := dot_length_val_nonneg sd wpm z
  simp only [dash_length_val]
  linarith

theorem dot_length_val_zero_sd (wpm z : ℚ) (h : 0 < wpm) :
    dot_length_val 0 wpm z = ((⌊(1200 : ℚ) / wpm⌋ : ℤ) : ℚ) := by
  have h0 : (0 : ℚ) ≤ ((⌊(1200 : ℚ) / wpm⌋ : ℤ) : ℚ) := by
    have hz : (0 : ℤ) ≤ ⌊(1200 : ℚ) / wpm⌋ := Int.floor_nonneg.mpr (by positivity)
    exact_mod_cast hz
  simp only [dot_length_val, gauss, mul_zero, add_zero, sub_zero, max_self,
    min_self]
  exact max_eq_right h0

theorem dash_length_val_zero_sd (wpm z : ℚ) (h : 0 < wpm) :
    dash_length_val 0 wpm z = 3 * ((⌊(1200 : ℚ) / wpm⌋ : ℤ) : ℚ) := by
  rw [dash_length_val, dot_length_val_zero_sd wpm z h]

theorem produce_symbol_nonneg (zs : ℕ → ℚ) (sd wpm : ℚ) (c : Char) (i : ℕ) :
    ∀ e ∈ (produce_symbol zs sd wpm c i).1, 0 ≤ e.2 := by
  intro e he
  unfold produce_symbol at he
  split_ifs at he <;>
    simp only [List.mem_singleton, List.not_mem_nil] at he
  · subst he; exact dot_length_val_nonneg sd wpm (zs i)
  · subst he; exact dash_length_val_nonneg sd wpm (zs i)
  · subst he
    exact mul_nonneg (dot_length_val_nonneg sd wpm (zs i)) (by norm_num)

theorem produce_symbols_nonneg (zs : ℕ → ℚ) (sd wpm : ℚ) :
    ∀ (pat : List Char) (i : ℕ),
      ∀ e ∈ (produce_symbols zs sd wpm pat i).1, 0 ≤ e.2 := by
  intro pat
  induction pat with
  | nil => intro i e he; simp [produce_symbols] at he
  | cons c rest ih =>
    intro i e he
    cases rest with
    | nil =>
      simp only [produce_symbols] at he
      exact produce_symbol_nonneg zs sd wpm c i e he
    | cons c2 rest2 =>
      simp only [produce_symbols] at he
      rcases List.mem_append.mp he with h1 | h2
      · exact produce_symbol_nonneg zs sd wpm c i e h1
      · rcases List.mem_cons.mp h2 with rfl | h3
        · exact dot_length_val_nonneg sd wpm _
        · exact ih _ e h3

theorem produce_char_nonneg (g : CWGenerator) (translit : Char → Char)
    (zs : ℕ → ℚ) (wpm : ℚ) (c : Char) (i : ℕ) :
    ∀ e ∈ (produce_char g translit zs wpm c i).1, 0 ≤ e.2 := by
  intro e he
  unfold produce_char at he
  cases hcw : char_to_cw translit g.normalise_special_characters c with
  | none => rw [hcw] at he; simp at he
  | some pat =>
    rw [hcw] at he
    simp only [produce_char_elems] at he
    rcases List.mem_append.mp he with h1 | h2
    · exact produce_symbols_nonneg zs _ wpm pat.toList i e h1
    · rcases List.mem_singleton.mp h2 with rfl
      exact dash_length_val_nonneg _ wpm _

theorem produce_nonneg (g : CWGenerator) (translit : Char → Char)
    (zs : ℕ → ℚ) :
    ∀ (cs : List Char) (wpm : ℚ) (i : ℕ),
      ∀ e ∈ (produce g translit zs cs wpm i).1, 0 ≤ e.2 := by
  intro cs
  induction cs with
  | nil => intro wpm i e he; simp [produce] at he
  | cons c cs ih =>
    intro wpm i e he
    simp only [produce] at he
    rcases hpc : produce_char g translit zs wpm c i with ⟨es1, oi⟩
    rw [hpc] at he
    cases oi with
    | none =>
      simp only at he
      exact produce_char_nonneg g translit zs wpm c i e (by rw [hpc]; exact he)
    | some i1 =>
      simp only at he
      rcases List.mem_append.mp he with h1 | h2
      · exact produce_char_nonneg g translit zs wpm c i e (by rw [hpc]; exact h1)
      · exact ih _ _ e h2

theorem drift_step_mem (g : CWGenerator) (mn mx : ℚ)
    (hmin : g.min_wpm = some mn) (hmax : g.max_wpm = some mx)
    (hle : mn ≤ mx) (wpm z : ℚ) :
    mn ≤ drift_step g wpm z ∧ drift_step g wpm z ≤ mx := by
  simp only [drift_step, hmin, hmax]
  exact ⟨le_min hle (le_max_left _ _), min_le_left _ _⟩

theorem drift_step_id (g : CWGenerator) (wpm z : ℚ)
    (hd : g.length_drift = 0)
    (hmn : ∀ m, g.min_wpm = some m → m ≤ wpm)
    (hmx : ∀ m, g.max_wpm = some m → wpm ≤ m) :
    drift_step g wpm z = wpm := by
  simp only [drift_step, hd, gauss, mul_zero, add_zero, sub_zero, max_self,
    min_self, mul_one]
  cases hm : g.min_wpm with
  | none =>
    cases hM : g.max_wpm with
    | none => rfl
    | some M => exact min_eq_right (hmx M hM)
  | some m =>
    have h1 : max m wpm = wpm := max_eq_right (hmn m hm)
    cases hM : g.max_wpm with
    | none => exact h1
    | some M =>
      dsimp only
      rw [h1]
      exact min_eq_right (hmx M hM)

theorem produce_final_speed_mem (g : CWGenerator) (translit : Char → Char)
    (zs : ℕ → ℚ) (mn mx : ℚ) (hmin : g.min_wpm = some mn)
    (hmax : g.max_wpm = some mx) (hle : mn ≤ mx) :
    ∀ (cs : List Char) (wpm : ℚ) (i : ℕ), cs ≠ [] →
      ∀ wpmF iF, (produce g translit zs cs wpm i).2 = some (wpmF, iF) →
      mn ≤ wpmF ∧ wpmF ≤ mx := by
  intro cs
  induction cs with
  | nil => intro wpm i h; exact absurd rfl h
  | cons c cs ih =>
    intro wpm i _ wpmF iF h
    simp only [produce] at h
    rcases hpc : produce_char g translit zs wpm c i with ⟨es1, oi⟩
    rw [hpc] at h
    cases oi with
    | none => simp at h
    | some i1 =>
      simp only at h
      cases cs with
      | nil =>
        simp only [produce] at h
        rw [Option.some.injEq, Prod.mk.injEq] at h
        obtain ⟨h1, h2⟩ := h
        subst h1
        exact drift_step_mem g mn mx hmin hmax hle wpm (zs i1)
      | cons c2 cs2 =>
        exact ih (drift_step g wpm (zs i1)) (i1 + 1) (by simp) wpmF iF h

theorem produce_final_speed_id (g : CWGenerator) (translit : Char → Char)
    (zs : ℕ → ℚ) (hd : g.length_drift = 0) :
    ∀ (cs : List Char) (wpm : ℚ) (i : ℕ),
      (∀ m, g.min_wpm = some m → m ≤ wpm) →
      (∀ m, g.max_wpm = some m → wpm ≤ m) →
      ∀ wpmF iF, (produce g translit zs cs wpm i).2 = some (wpmF, iF) →
      wpmF = wpm := by
  intro cs
  induction cs with
  | nil =>
    intro wpm i _ _ wpmF iF h
    simp only [produce] at h
    rw [Option.some.injEq, Prod.mk.injEq] at h
    exact h.1.symm
  | cons c cs ih =>
    intro wpm i hmn hmx wpmF iF h
    simp only [produce] at h
    rcases hpc : produce_char g translit zs wpm c i with ⟨es1, oi⟩
    rw [hpc] at h
    cases oi with
    | none => simp at h
    | some i1 =>
      simp only at h
      rw [drift_step_id g wpm (zs i1) hd hmn hmx] at h
      exact ih wpm (i1 + 1) hmn hmx wpmF iF h

theorem cycle_n_mem_of_mem {α : Type} {xs : List α} {a : α} (ha : a ∈ xs)
    (n : ℤ) (hq : (Int.fdiv n xs.length).toNat ≠ 0) :
    ∃ l, cycle_n xs n = some l ∧ a ∈ l := by
  have hne : xs ≠ [] := by rintro rfl; simp at ha
  have hL : xs.length ≠ 0 := by simpa [List.length_eq_zero] using hne
  refine ⟨(List.replicate (Int.fdiv n xs.length).toNat xs).flatten ++
      xs.take (n - Int.fdiv n xs.length * xs.length).toNat, ?_, ?_⟩
  · simp only [cycle_n, if_neg hL]
  · exact List.mem_append_left _
      (List.mem_flatten_of_mem (List.mem_replicate.mpr ⟨hq, rfl⟩) ha)

/-! ## Claim theorems -/

/-- Claim C3 (confirmed): with jitterStdDevRatio = 0 the dot length equals
floor(1200/wpm) exactly and the dash length equals 3 * floor(1200/wpm),
for every positive speed, regardless of the values the random source
produces (the draws z and w are arbitrary). -/
theorem C3_deterministic_lengths (wpm z w : ℚ) (h : 0 < wpm) :
    dot_length_val 0 wpm z = ((⌊(1200 : ℚ) / wpm⌋ : ℤ) : ℚ) ∧
    dash_length_val 0 wpm w = 3 * ((⌊(1200 : ℚ) / wpm⌋ : ℤ) : ℚ) :=
  ⟨dot_length_val_zero_sd wpm z h, dash_length_val_zero_sd wpm w h⟩

/-- Witness for C3 at wpm = 12 with nonzero draws: dot = floor(1200/12). -/
theorem C3_deterministic_lengths_witness :
    0 < (12 : ℚ) ∧
      (dot_length_val 0 12 7 = ((⌊(1200 : ℚ) / 12⌋ : ℤ) : ℚ) ∧
        dash_length_val 0 12 (-5) = 3 * ((⌊(1200 : ℚ) / 12⌋ : ℤ) : ℚ)) ∧
      ((⌊(1200 : ℚ) / 12⌋ : ℤ) : ℚ) = 100 :=
  ⟨by norm_num, C3_deterministic_lengths 12 7 (-5) (by norm_num), by norm_num⟩

/-- Claim C9 (confirmed): every timed element the Timing Generator emits,
for every input, configuration and draw sequence, has a non-negative
duration. -/
theorem C9_duration_nonneg (g : CWGenerator) (translit : Char → Char)
    (zs : ℕ → ℚ) (cs : List Char) (wpm : ℚ) (i : ℕ) :
    ∀ e ∈ (produce g translit zs cs wpm i).1, 0 ≤ e.2 :=
  produce_nonneg g translit zs cs wpm i

/-- Witness for C9: the dot element of the input "e" at 12 WPM. -/
theorem C9_duration_nonneg_witness :
    (true, (100 : ℚ)) ∈
      (produce ⟨none, none, 0, 0, false⟩ id (fun _ => 0) ['e'] 12 0).1 ∧
    (0 : ℚ) ≤ ((true, (100 : ℚ)) : Bool × ℚ).2 := by
  have hmem : (true, (100 : ℚ)) ∈
      (produce ⟨none, none, 0, 0, false⟩ id (fun _ => 0) ['e'] 12 0).1 := by
    have h : (produce ⟨none, none, 0, 0, false⟩ id (fun _ => 0) ['e'] 12 0).1
        = [(true, 100), (false, 300)] := by
      have hcw : char_to_cw id false 'e' = some "." := by decide
      norm_num [produce, produce_char, hcw, produce_char_elems,
        produce_symbols, produce_symbol, dot_length_val, dash_length_val,
        gauss, drift_step, max_def, min_def]
    rw [h]
    simp
  exact ⟨hmem,
    C9_duration_nonneg ⟨none, none, 0, 0, false⟩ id (fun _ => 0) ['e'] 12 0
      (true, 100) hmem⟩

/-- Claim C4 (confirmed): with drift enabled and both bounds configured
(minSpeed ≤ maxSpeed), the speed lies in [minSpeed, maxSpeed] after
processing each character, for every input and every draw sequence. -/
theorem C4_speed_clamped (g : CWGenerator) (translit : Char → Char)
    (zs : ℕ → ℚ) (mn mx : ℚ) (hmin : g.min_wpm = some mn)
    (hmax : g.max_wpm = some mx) (hle : mn ≤ mx)
    (hdrift : 0 < g.length_drift) (cs : List Char) (hcs : cs ≠ [])
    (wpm : ℚ) (i : ℕ) (wpmF : ℚ) (iF : ℕ)
    (h : (produce g translit zs cs wpm i).2 = some (wpmF, iF)) :
    mn ≤ wpmF ∧ wpmF ≤ mx :=
  produce_final_speed_mem g translit zs mn mx hmin hmax hle cs wpm i hcs
    wpmF iF h

/-- Witness for C4: bounds [10, 20], drift 1/10, initial speed 15,
input "e", all draws zero. -/
theorem C4_speed_clamped_witness :
    (produce ⟨some 10, some 20, 0, 1/10, false⟩ id (fun _ => 0) ['e'] 15 0).2
        = some (15, 3) ∧ (10 : ℚ) ≤ 15 ∧ (15 : ℚ) ≤ 20 := by
  have hp : (produce ⟨some 10, some 20, 0, 1/10, false⟩ id (fun _ => 0)
      ['e'] 15 0).2 = some (15, 3) := by
    have hcw : char_to_cw id false 'e' = some "." := by decide
    norm_num [produce, produce_char, hcw, produce_char_elems, produce_symbols,
      produce_symbol, dot_length_val, dash_length_val, gauss, drift_step,
      max_def, min_def]
  exact ⟨hp, C4_speed_clamped ⟨some 10, some 20, 0, 1/10, false⟩ id
    (fun _ => 0) 10 20 rfl rfl (by norm_num) (by norm_num) ['e'] (by simp)
    15 0 15 3 hp⟩

/-- Counterexample to claim C5 as stated: with zero drift but an initial
speed of 5 WPM below a configured minimum of 10 WPM, the speed after one
character is 10, not the initial 5 — the final clamp of CWGenerator.drift
moves the speed even though the drift factor is exactly 1. -/
theorem C5_clamp_counterexample :
    (produce ⟨some 10, none, 0, 0, false⟩ id (fun _ => 0) ['e'] 5 0).2
        = some (10, 3) ∧ (10 : ℚ) ≠ 5 := by
  constructor
  · have hcw : char_to_cw id false 'e' = some "." := by decide
    norm_num [produce, produce_char, hcw, produce_char_elems, produce_symbols,
      produce_symbol, dot_length_val, dash_length_val, gauss, drift_step,
      max_def, min_def]
  · norm_num

/-- Claim C5 (amended): with driftStdDev = 0 and the initial speed inside
the configured clamps (min_wpm ≤ speed, speed ≤ max_wpm where present),
the speed after processing any number of characters equals the initial
speed exactly, for every input and every draw sequence. -/
theorem C5_zero_drift (g : CWGenerator) (translit : Char → Char)
    (zs : ℕ → ℚ) (hd : g.length_drift = 0) (cs : List Char) (wpm : ℚ)
    (i : ℕ) (hmn : ∀ m, g.min_wpm = some m → m ≤ wpm)
    (hmx : ∀ m, g.max_wpm = some m → wpm ≤ m) (wpmF : ℚ) (iF : ℕ)
    (h : (produce g translit zs cs wpm i).2 = some (wpmF, iF)) :
    wpmF = wpm :=
  produce_final_speed_id g translit zs hd cs wpm i hmn hmx wpmF iF h

/-- Witness for C5: clamps [10, 20], zero drift, initial speed 12,
input "e": the final speed is exactly 12. -/
theorem C5_zero_drift_witness :
    (produce ⟨some 10, some 20, 0, 0, false⟩ id (fun _ => 0) ['e'] 12 0).2
        = some (12, 3) ∧ (12 : ℚ) = 12 := by
  have hp : (produce ⟨some 10, some 20, 0, 0, false⟩ id (fun _ => 0)
      ['e'] 12 0).2 = some (12, 3) := by
    have hcw : char_to_cw id false 'e' = some "." := by decide
    norm_num [produce, produce_char, hcw, produce_char_elems, produce_symbols,
      produce_symbol, dot_length_val, dash_length_val, gauss, drift_step,
      max_def, min_def]
  exact ⟨hp, C5_zero_drift ⟨some 10, some 20, 0, 0, false⟩ id (fun _ => 0)
    rfl ['e'] 12 0 (by rintro m ⟨rfl⟩; norm_num)
    (by rintro m ⟨rfl⟩; norm_num) 12 3 hp⟩

/-- Claim C8 (confirmed): with transliteration disabled, an input of one
character whose normalised form has no alphabet-table entry yields the
KeyError of the CHARS lookup (the UnknownCharacter failure) and zero
timed elements: no element precedes the error. -/
theorem C8_unknown_char (g : CWGenerator) (translit : Char → Char)
    (zs : ℕ → ℚ) (wpm : ℚ) (i : ℕ) (c : Char)
    (hn : g.normalise_special_characters = false)
    (h : CHARS.lookup (normalise_char c) = none) :
    produce g translit zs [c] wpm i = ([], none) := by
  simp [produce, produce_char, char_to_cw, hn, h]

/-- Witness for C8: the character with code point 33, which has no
alphabet-table entry. -/
theorem C8_unknown_char_witness :
    CHARS.lookup (normalise_char '!') = none ∧
      produce ⟨none, none, 0, 0, false⟩ id (fun _ => 0) ['!'] 12 0
        = ([], none) := by
  have h : CHARS.lookup (normalise_char '!') = none := by decide
  exact ⟨h, C8_unknown_char ⟨none, none, 0, 0, false⟩ id (fun _ => 0) 12 0
    '!' rfl h⟩

/-- Claim C6 (confirmed): every entry of the CHARS table carries the
canonical International Morse Code pattern of its character, and every
character the spec lists as supported has a CHARS entry. -/
theorem C6_alphabet_canonical :
    (CHARS.all fun cp => canonical_morse cp.1 == some cp.2) = true ∧
    (supported_characters.all fun c => (CHARS.lookup c).isSome) = true := by
  decide

/-- Claim C7 (confirmed): encoding the one-character string "e" with zero
jitter and zero drift yields exactly two timed elements: one tone-on
element of one dot length floor(1200/wpm) followed by one tone-off
element of one dash length 3 * floor(1200/wpm), and nothing else. -/
theorem C7_single_e (g : CWGenerator) (translit : Char → Char) (zs : ℕ → ℚ)
    (wpm : ℚ) (i : ℕ) (hn : g.normalise_special_characters = false)
    (hsd : g.length_standard_deviation = 0) (hdr : g.length_drift = 0)
    (h : 0 < wpm) :
    (produce g translit zs ['e'] wpm i).1 =
      [(true, ((⌊(1200 : ℚ) / wpm⌋ : ℤ) : ℚ)),
       (false, 3 * ((⌊(1200 : ℚ) / wpm⌋ : ℤ) : ℚ))] := by
  have hcw : char_to_cw translit g.normalise_special_characters 'e'
      = some "." := by
    rw [hn]
    have hif : (if (false : Bool) = true then translit 'e' else 'e') = 'e' :=
      by simp
    simp only [char_to_cw, hif]
    decide
  have hpat : (".").toList = ['.'] := rfl
  norm_num [produce, produce_char, hcw, hpat, produce_char_elems,
    produce_symbols, produce_symbol, hsd, dash_length_val,
    dot_length_val_zero_sd, h]

/-- Witness for C7 at wpm = 12: the elements are exactly the 100 ms dot
and the 300 ms inter-character gap. -/
theorem C7_single_e_witness :
    (produce ⟨none, none, 0, 0, false⟩ id (fun _ => 0) ['e'] 12 0).1 =
      [(true, ((⌊(1200 : ℚ) / 12⌋ : ℤ) : ℚ)),
       (false, 3 * ((⌊(1200 : ℚ) / 12⌋ : ℤ) : ℚ))] ∧
    ((⌊(1200 : ℚ) / 12⌋ : ℤ) : ℚ) = 100 :=
  ⟨C7_single_e ⟨none, none, 0, 0, false⟩ id (fun _ => 0) 12 0 rfl rfl rfl
    (by norm_num), by norm_num⟩

/-- Counterexample to claim C1 as stated: at duration 1 ms and sample rate
1600 Hz (frequency 800 Hz, so the period is 2 samples), the source emits
int(1 * 1600 / 1000) = 1 sample, while round(1 * 1600 / 1000) = 2. -/
theorem C1_round_counterexample :
    (sine_wave 800 1 1600 1).map List.length ≠
      some (round ((1 : ℚ) * 1600 / 1000)).toNat := by
  have hp : pyInt ((1600 : ℚ) / 800) = 2 := by unfold pyInt; norm_num
  have hn : pyInt ((1 : ℚ) * 1600 / 1000) = 1 := by unfold pyInt; norm_num
  have h1 : (sine_wave 800 1 1600 1).map List.length = some 1 := by
    have hlen := sine_wave_length 800 1 1600 1 (by rw [hp]; norm_num)
      (by rw [hn]; norm_num)
    rw [hn] at hlen
    simpa using hlen
  have h2 : round ((1 : ℚ) * 1600 / 1000) = 2 := by
    rw [round_eq]
    norm_num
  rw [h1, h2]
  simp

/-- Claim C1 (amended): the number of PCM samples emitted for an element
is the truncation int(duration * frame_rate / 1000) of the exact value —
equal to its floor for the non-negative durations the pipeline produces —
not its rounding to the nearest integer. -/
theorem C1_sample_count (frequency duration frame_rate : ℚ) (amplitude : ℝ)
    (hp : 0 < pyInt (frame_rate / frequency))
    (hd : 0 ≤ duration * frame_rate) :
    (sine_wave frequency duration frame_rate amplitude).map List.length =
      some (pyInt (duration * frame_rate / 1000)).toNat :=
  sine_wave_length frequency duration frame_rate amplitude hp
    (pyInt_nonneg (div_nonneg hd (by norm_num)))

/-- Witness for C1: duration 1 ms at 1600 Hz gives one sample,
the floor of 1.6. -/
theorem C1_sample_count_witness :
    0 < pyInt ((1600 : ℚ) / 800) ∧ (0 : ℚ) ≤ 1 * 1600 ∧
      (sine_wave 800 1 1600 1).map List.length =
        some (pyInt ((1 : ℚ) * 1600 / 1000)).toNat ∧
      (pyInt ((1 : ℚ) * 1600 / 1000)).toNat = 1 := by
  have hp : 0 < pyInt ((1600 : ℚ) / 800) := by unfold pyInt; norm_num
  have hn : pyInt ((1 : ℚ) * 1600 / 1000) = 1 := by unfold pyInt; norm_num
  exact ⟨hp, by norm_num, C1_sample_count 800 1 1600 1 hp (by norm_num),
    by rw [hn]; rfl⟩

/-- Counterexample to claim C2 as stated: 30000 Hz exceeds half the
44100 Hz sample rate, yet synthesis succeeds (the period is 1 sample) —
no InvalidConfiguration error is raised anywhere in the source. -/
theorem C2_half_rate_counterexample :
    (44100 : ℚ) / 2 < 30000 ∧ (sine_wave 30000 1 44100 1).isSome = true := by
  refine ⟨by norm_num, ?_⟩
  rw [← Option.ne_none_iff_isSome]
  intro h
  rw [sine_wave_eq_none_iff, pyInt_of_nonneg (by norm_num)] at h
  norm_num at h

/-- Claim C2 (amended): synthesis fails if and only if the requested
frequency exceeds the full sample rate — then the period
int(frame_rate/frequency) is 0 samples, the lookup table is empty and
cycle_n raises ZeroDivisionError before any sample exists, so a failing
stream yields no samples at all; frequencies up to the sample rate
(including the whole aliased band above half the rate) raise nothing. -/
theorem C2_degenerate_period (frequency frame_rate : ℚ)
    (hf : 0 < frequency) (hr : 0 < frame_rate) :
    (∀ (duration : ℚ) (amplitude : ℝ),
        sine_wave frequency duration frame_rate amplitude = none ↔
          frame_rate < frequency) ∧
    (∀ (tone : Bool) (dur : ℚ) (rest : List (Bool × ℚ)),
        frame_rate < frequency →
        generate_wav_audio ((tone, dur) :: rest) frame_rate frequency =
          ([], false)) := by
  have key : ∀ (d : ℚ) (a : ℝ),
      sine_wave frequency d frame_rate a = none ↔ frame_rate < frequency := by
    intro d a
    rw [sine_wave_eq_none_iff,
      pyInt_of_nonneg (le_of_lt (div_pos hr hf))]
    rw [show (⌊frame_rate / frequency⌋ ≤ 0 ↔ ⌊frame_rate / frequency⌋ < 1)
      from by omega]
    rw [Int.floor_lt]
    push_cast
    rw [div_lt_one hf]
  refine ⟨key, ?_⟩
  intro tone dur rest hlt
  have h := (key dur (if tone then 0.5 * (max_amp : ℝ) else 0)).mpr hlt
  simp only [generate_wav_audio, h]

/-- Witness for C2: 50000 Hz against a 44100 Hz rate fails with no
samples emitted. -/
theorem C2_degenerate_period_witness :
    0 < (50000 : ℚ) ∧ 0 < (44100 : ℚ) ∧
      sine_wave 50000 10 44100 1 = none ∧
      generate_wav_audio [(true, 10)] 44100 50000 = ([], false) := by
  refine ⟨by norm_num, by norm_num, ?_, ?_⟩
  · exact ((C2_degenerate_period 50000 44100 (by norm_num) (by norm_num)).1
      10 1).mpr (by norm_num)
  · exact (C2_degenerate_period 50000 44100 (by norm_num) (by norm_num)).2
      true 10 [] (by norm_num)

/-- Claim C10 (confirmed): whenever a period of at least one sample
exists (sine_wave succeeds), every emitted sample has absolute value at
most the absolute value of the amplitude argument as passed in; and the
amplitude is not clamped into [0, 1] on the way out — for every
amplitude, the raw value itself appears among the samples of a quarter-
rate tone, so amplitudes outside [0, 1] pass through at full magnitude. -/
theorem C10_amplitude_passthrough :
    (∀ (frequency duration frame_rate : ℚ) (amplitude : ℝ) (l : List ℝ),
        sine_wave frequency duration frame_rate amplitude = some l →
        ∀ s ∈ l, |s| ≤ |amplitude|) ∧
    (∀ amplitude : ℝ, ∃ l, sine_wave 2 1000 8 amplitude = some l ∧
        amplitude ∈ l) := by
  constructor
  · intro f d r a l hl s hs
    rw [sine_wave_eq] at hl
    have hmem := mem_of_mem_cycle_n hl hs
    obtain ⟨j, _, rfl⟩ := List.mem_map.mp hmem
    rw [abs_mul]
    calc |a| * |Real.sin (2 * Real.pi * (f : ℝ) *
            ((j % (pyInt (r / f)).toNat : ℕ) : ℝ) / (r : ℝ))|
          ≤ |a| * 1 :=
            mul_le_mul_of_nonneg_left (Real.abs_sin_le_one _) (abs_nonneg a)
      _ = |a| := mul_one _
  · intro a
    have hp : pyInt ((8 : ℚ) / 2) = 4 := by unfold pyInt; norm_num
    have hn : pyInt ((1000 : ℚ) * 8 / 1000) = 8 := by unfold pyInt; norm_num
    have hmem : a ∈ (List.range ((4 : ℤ)).toNat).map fun j =>
        a * Real.sin (2 * Real.pi * ((2 : ℚ) : ℝ) *
          ((j % ((4 : ℤ)).toNat : ℕ) : ℝ) / ((8 : ℚ) : ℝ)) := by
      refine List.mem_map.mpr ⟨1, List.mem_range.mpr (by norm_num), ?_⟩
      have h14 : (1 % ((4 : ℤ)).toNat : ℕ) = 1 := rfl
      rw [h14]
      push_cast
      rw [show (2 : ℝ) * Real.pi * 2 * 1 / 8 = Real.pi / 2 by ring]
      rw [Real.sin_pi_div_two, mul_one]
    obtain ⟨l, hl, hal⟩ := cycle_n_mem_of_mem hmem 8 (by
      simp only [List.length_map, List.length_range]
      decide)
    refine ⟨l, ?_, hal⟩
    rw [sine_wave_eq, hp, hn]
    exact hl

/-- Witness for C10 at amplitude 3 (outside [0, 1]): the value 3 itself
is among the emitted samples and the bound 3 ≤ 3 holds at it. -/
theorem C10_amplitude_passthrough_witness :
    ∃ l, sine_wave 2 1000 8 3 = some l ∧ (3 : ℝ) ∈ l ∧
      |(3 : ℝ)| ≤ |(3 : ℝ)| := by
  obtain ⟨l, hl, hm⟩ := C10_amplitude_passthrough.2 3
  exact ⟨l, hl, hm, C10_amplitude_passthrough.1 2 1000 8 3 l hl 3 hm⟩

end Cwgen
